import Mathlib

/-!
Verification of the portal chat UI's message submission queue and helpers.

Shallow embedding of the client-side message submission queue, the optimistic
message lifecycle, the `@file` mention trigger parser, and the proxy API
handlers of the `portal` repository.

The session page (`SessionPage`) keeps, per open session:
* a `messageQueue : QueuedMessage[]` React state,
* `sending : boolean` React state and `isProcessingQueue : ref boolean`,
* an SWR message cache mutated through `addOptimisticMessage`,
  `updateOptimisticMessage`, `removeOptimisticMessage` (those three helpers
  live in the `use-session-messages` hook, which is not part of the sources
  at hand; they are modelled from the spec's Message Store contract).

The asynchronous drain loop `processQueue` is embedded as a small-step
transition system: every `await` in the source is a step boundary where other
events (further `handleSubmit` calls, network resolutions, SWR revalidation)
may interleave.  `Date.now()`-based temporary ids (`temp-<ms>`) are modelled
by a monotonic counter `nextTempId`, following the data model's stipulation
that temporary ids are unique per pending submission; only the numeric part
of the id is kept.
-/

set_option autoImplicit false

namespace Portal

/-- A queued prompt submission (source `interface QueuedMessage`): the
client-generated temporary id and the trimmed prompt text. -/
structure QueuedMessage where
  id : Nat
  text : String
deriving DecidableEq, Repr

/-- A message content fragment.  The source `Part` type from the SDK carries a
`type` discriminator and, for text parts, a `text` field; only those two fields
matter for the properties at hand. -/
structure MsgPart where
  type : String
  text : String
deriving DecidableEq, Repr

/-- The `info` header of a cached message: its id and role. -/
structure MessageInfo where
  id : Nat
  role : String
deriving DecidableEq, Repr

/-- A cached message entry (source `MessageWithParts`): header, parts and the
optimistic `isQueued` flag (absent on server-fetched entries, i.e. `false`). -/
structure MessageWithParts where
  info : MessageInfo
  parts : List MsgPart
  isQueued : Bool
deriving DecidableEq, Repr

/-- Program counter of one `processQueue` drain-loop instance.  Each
constructor is a resumption point between two `await`s of the source:
* `popping`: at the top of the `while` loop, about to run the
  `setMessageQueue` updater that removes the head (lines 401-411);
* `ticking next`: after the pop, suspended on
  `await new Promise(resolve => setTimeout(resolve, 0))` (line 414) with the
  popped message (or `none` if the queue was empty) held in `nextMessage`;
* `inFlight m`: the `fetch` issued by `sendMessage` for `m` is unresolved
  (line 421 awaiting lines 361-370). -/
inductive DrainPC where
  | popping
  | ticking (next : Option QueuedMessage)
  | inFlight (m : QueuedMessage)
deriving DecidableEq, Repr

/-- State of one open session's UI, as held by `SessionPage`.
`dispatched` and `enqueued` are ghost histories: the texts handed to the
network in dispatch order, and the trimmed texts accepted by `handleSubmit`
in submission order.  `drains` is the list of currently active drain-loop
instances (the source intends at most one, enforced by `isProcessingQueue`;
keeping a list lets that mutual-exclusion be proved rather than assumed). -/
structure SessionState where
  messages : List MessageWithParts
  messageQueue : List QueuedMessage
  sending : Bool
  isProcessingQueue : Bool
  sendError : Option String
  drains : List DrainPC
  nextTempId : Nat
  dispatched : List String
  enqueued : List String
deriving DecidableEq, Repr

/-- JavaScript-style `String.prototype.trim`: strips leading and trailing
whitespace (space, tab, newline, carriage return, vertical tab, form feed). -/
def jsWhitespace (c : Char) : Bool :=
  c = ' ' || c = '\t' || c = '\n' || c = '\r' || c = '\x0b' || c = '\x0c'

/-- `input.trim()` of the source, over the underlying character list. -/
def jsTrim (s : String) : String :=
  ⟨((s.data.dropWhile jsWhitespace).reverse.dropWhile jsWhitespace).reverse⟩

/-- The optimistic record built by `handleSubmit` (lines 448-467): fresh
temporary id, role `"user"`, exactly one text part holding the trimmed input,
and `isQueued` as computed at line 445. -/
def mkOptimisticMessage (id : Nat) (text : String) (shouldQueue : Bool) :
    MessageWithParts :=
  { info := { id := id, role := "user" }
    parts := [{ type := "text", text := text }]
    isQueued := shouldQueue }

/-- Modelled from the spec: `updateOptimisticMessage(sessionId, id, {isQueued:
false})` of the `use-session-messages` hook (not among the sources), per the
Message Store contract "merges patch fields (e.g. `isQueued`) into the
existing record matching `id`; no-op if absent". -/
def markDequeued (msgs : List MessageWithParts) (id : Nat) :
    List MessageWithParts :=
  msgs.map fun r => if r.info.id = id then { r with isQueued := false } else r

/-- `handleSubmit` (lines 435-476): rejects input whose trim is empty, else
builds the optimistic record with
`shouldQueue = sending || messageQueue.length > 0` (line 445), appends it to
the message cache (`addOptimisticMessage`, modelled from the spec as
insertion at the end of the cached list), appends the `QueuedMessage` to the
queue tail, and clears `sendError` (line 442).  The fresh id `temp-<ms>` is
modelled by the `nextTempId` counter. -/
def handleSubmit (s : SessionState) (input : String) : SessionState :=
  let t := jsTrim input
  if t = "" then s
  else
    { s with
      sendError := none
      messages := s.messages ++
        [mkOptimisticMessage s.nextTempId t (s.sending || !s.messageQueue.isEmpty)]
      messageQueue := s.messageQueue ++ [⟨s.nextTempId, t⟩]
      nextTempId := s.nextTempId + 1
      enqueued := s.enqueued ++ [t] }

/-- An event the session page can process.  Each corresponds to a synchronous
block of the source between two suspension points:
* `submit input`: a `handleSubmit` invocation (its whole body is synchronous);
* `tryStartDrain`: the `useEffect` at lines 429-433 invoking `processQueue`,
  whose entry guard re-checks `isProcessingQueue` (line 396);
* `pop i`: drain loop `i` runs the head-removing `setMessageQueue` updater;
* `tick i`: the `setTimeout(0)` of drain loop `i` fires: either the loop saw
  an empty queue and exits clearing both flags (lines 416, 424-425), or it
  marks the popped record `isQueued = false` (line 419) and issues the
  dispatch `fetch` (line 421, body at lines 361-370);
* `resolveOk i` / `resolveFail i`: the dispatch of loop `i` settles; on
  failure `sendMessage` sets the error and removes the optimistic record
  (lines 383-389), on success it requests revalidation (lines 376-382);
* `reconcile server`: an SWR revalidation lands, replacing the cached list
  with server-fetched messages (which carry no `isQueued` flag). -/
inductive Event where
  | submit (input : String)
  | tryStartDrain
  | pop (i : Nat)
  | tick (i : Nat)
  | resolveOk (i : Nat)
  | resolveFail (i : Nat)
  | reconcile (server : List MessageWithParts)
deriving Repr

/-- One step of the session page.  `none` means the event is not enabled in
this state (e.g. resolving a dispatch that is not in flight). -/
def step (s : SessionState) : Event → Option SessionState
  | .submit input => some (handleSubmit s input)
  | .tryStartDrain =>
      if s.messageQueue.isEmpty then some s
      else if s.isProcessingQueue then some s
      else some { s with
        isProcessingQueue := true
        sending := true
        drains := s.drains ++ [.popping] }
  | .pop i =>
      match s.drains.get? i with
      | some .popping =>
          match s.messageQueue with
          | [] => some { s with drains := s.drains.set i (.ticking none) }
          | h :: tq => some { s with
              messageQueue := tq
              drains := s.drains.set i (.ticking (some h)) }
      | _ => none
  | .tick i =>
      match s.drains.get? i with
      | some (.ticking none) =>
          some { s with
            drains := s.drains.eraseIdx i
            isProcessingQueue := false
            sending := false }
      | some (.ticking (some m)) =>
          some { s with
            messages := markDequeued s.messages m.id
            dispatched := s.dispatched ++ [m.text]
            drains := s.drains.set i (.inFlight m) }
      | _ => none
  | .resolveOk i =>
      match s.drains.get? i with
      | some (.inFlight _) => some { s with drains := s.drains.set i .popping }
      | _ => none
  | .resolveFail i =>
      match s.drains.get? i with
      | some (.inFlight m) =>
          some { s with
            sendError := some "Failed to send message"
            messages := s.messages.filter fun r => r.info.id != m.id
            drains := s.drains.set i .popping }
      | _ => none
  | .reconcile server =>
      if server.all (fun r => !r.isQueued) then some { s with messages := server }
      else none

/-- The state of a freshly mounted session view: empty caches, empty queue,
no drain running. -/
def initState : SessionState :=
  { messages := []
    messageQueue := []
    sending := false
    isProcessingQueue := false
    sendError := none
    drains := []
    nextTempId := 0
    dispatched := []
    enqueued := [] }

/-- Run a list of events from a state; `none` if some event is not enabled. -/
def runFrom (s : SessionState) : List Event → Option SessionState
  | [] => some s
  | e :: es =>
      match step s e with
      | some s' => runFrom s' es
      | none => none

/-- The messages held by drain loops between pop and dispatch
(`nextMessage` captured but `updateOptimisticMessage` not yet run). -/
def pcHeld : DrainPC → List QueuedMessage
  | .ticking (some m) => [m]
  | _ => []

/-- The messages whose dispatch network call is currently unresolved. -/
def pcFlight : DrainPC → List QueuedMessage
  | .inFlight m => [m]
  | _ => []

/-- All popped-but-not-yet-dispatched messages across drain loops. -/
def held : List DrainPC → List QueuedMessage
  | [] => []
  | pc :: rest => pcHeld pc ++ held rest

/-- All messages with an unresolved dispatch across drain loops. -/
def flight : List DrainPC → List QueuedMessage
  | [] => []
  | pc :: rest => pcFlight pc ++ flight rest

/-- The `isQueued` flag of the cached record with the given id, if present
(first match, mirroring `find`-style lookup for display). -/
def recQueued (s : SessionState) (id : Nat) : Option Bool :=
  (s.messages.find? fun r => r.info.id == id).map (·.isQueued)

/-! ## Mention trigger parser (`file-mention-popover.tsx`) -/

/-- `value.lastIndexOf("@")` restricted to the text before the cursor: index
of the last occurrence of `c`, over the character list. -/
def lastIndexOf (c : Char) : List Char → Option Nat
  | [] => none
  | x :: xs =>
      match lastIndexOf c xs with
      | some i => some (i + 1)
      | none => if x = c then some 0 else none

/-- The mention-relevant state of the `useFileMention` hook after a
`handleInputChange` call: `isOpen`, `searchQuery`, `mentionStart`,
`selectedIndex`. -/
structure MentionState where
  isOpen : Bool
  searchQuery : List Char
  mentionStart : Option Nat
  selectedIndex : Nat
deriving DecidableEq, Repr

/-- `close()` of the hook (lines 439-444): popover closed, query emptied,
anchor cleared, selection reset. -/
def closedMention : MentionState :=
  { isOpen := false, searchQuery := [], mentionStart := none, selectedIndex := 0 }

/-- `charBeforeAt` of `handleInputChange` (line 373):
`atIndex > 0 ? textBeforeCursor[atIndex - 1] : " "`. -/
def charBefore (t : List Char) (atIndex : Nat) : Char :=
  if atIndex > 0 then t.getD (atIndex - 1) ' ' else ' '

/-- `handleInputChange(value, cursorPosition)` (lines 365-391).
`value.take cursorPosition` is the source's `textBeforeCursor`, and
`(value.take cursorPosition).drop (atIndex + 1)` its `textAfterAt`.  Strings
are modelled as character lists so that JavaScript's index arithmetic is
positional; the inputs of interest are ASCII, where the two coincide. -/
def handleInputChange (value : List Char) (cursorPosition : Nat) :
    MentionState :=
  match lastIndexOf '@' (value.take cursorPosition) with
  | some atIndex =>
      if (charBefore (value.take cursorPosition) atIndex == ' '
            || charBefore (value.take cursorPosition) atIndex == '\n'
            || atIndex == 0)
          && !(((value.take cursorPosition).drop (atIndex + 1)).contains ' ')
          && !(((value.take cursorPosition).drop (atIndex + 1)).contains '\n')
      then { isOpen := true
             searchQuery := (value.take cursorPosition).drop (atIndex + 1)
             mentionStart := some atIndex
             selectedIndex := 0 }
      else closedMention
  | none => closedMention

/-- Modelled from the spec, for the refinement comparison with
`handleInputChange`: `computeMentionContext` is active at anchor `i` iff `i`
is the nearest `@` scanning backward from the cursor (no later `@` before
the cursor), the character immediately preceding the `@` is whitespace (the
space character) or a newline or the `@` is at offset 0, and the text
between the `@` and the cursor contains no whitespace or newline. -/
def SpecMentionActiveAt (fullText : List Char) (cursorOffset i : Nat) : Prop :=
  (fullText.take cursorOffset).get? i = some '@'
  ∧ (∀ j, i < j → (fullText.take cursorOffset).get? j ≠ some '@')
  ∧ (i = 0 ∨ ∃ c, (fullText.take cursorOffset).get? (i - 1) = some c
      ∧ (c = ' ' ∨ c = '\n'))
  ∧ (∀ j c, i < j → (fullText.take cursorOffset).get? j = some c →
      c ≠ ' ' ∧ c ≠ '\n')

/-- Modelled from the spec: the mention context is active. -/
def SpecMentionActive (fullText : List Char) (cursorOffset : Nat) : Prop :=
  ∃ i, SpecMentionActiveAt fullText cursorOffset i

/-! ## Mention popover candidates and navigation
(`FileMentionPopover`, lines 172-204 and 393-424) -/

/-- A candidate entry as built by `fetchFiles`. -/
structure FileResult where
  path : String
  name : String
deriving DecidableEq, Repr

/-- `fetchFiles`'s mapping of the server's ordered path list (lines 183-186):
`fileList.slice(0, 10).map(path => ({ path, name: path.split("/").pop() ||
path }))`. -/
def mapFetchedFiles (fileList : List String) : List FileResult :=
  (fileList.take 10).map fun path =>
    { path := path
      name :=
        match (path.splitOn "/").getLast? with
        | some n => if n = "" then path else n
        | none => path }

/-- `ArrowDown` selection update (line 402):
`(prev + 1) % Math.max(filesCount, 1)`. -/
def arrowDownIndex (prev filesCount : Nat) : Nat :=
  (prev + 1) % max filesCount 1

/-- `ArrowUp` selection update (lines 406-408):
`prev - 1 < 0 ? Math.max(filesCount - 1, 0) : prev - 1`; the truncated `Nat`
subtraction yields exactly `Math.max(filesCount - 1, 0)`. -/
def arrowUpIndex (prev filesCount : Nat) : Nat :=
  if prev = 0 then filesCount - 1 else prev - 1

/-! ## Proxy API handlers (`src/pages/api/[[...slugs]].ts`) -/

/-- The JSON body the client's `sendMessage` posts to
`/api/sessions/:id/prompt` (lines 366-369 of the session page):
`{ text: messageText, model: selectedModel }`. -/
structure ClientPromptBody where
  text : String
  model : String
deriving DecidableEq, Repr

/-- `sendMessage`'s request body: the prompt text together with the user's
selected model. -/
def sendMessageBody (messageText selectedModel : String) : ClientPromptBody :=
  { text := messageText, model := selectedModel }

/-- A part of the body forwarded to the upstream SDK's `session.prompt`. -/
structure UpstreamTextPart where
  type : String
  text : String
deriving DecidableEq, Repr

/-- The body the proxy hands to `opencodeClient.session.prompt` (lines
37-42 of the API route): only `parts`. -/
structure UpstreamPromptBody where
  parts : List UpstreamTextPart
deriving DecidableEq, Repr

/-- `POST /sessions/:id/prompt` (lines 35-44): the handler destructures only
`text` from the request body (`const { text } = body`) and forwards
`{ parts: [{ type: "text", text }] }` upstream. -/
def promptForward (body : ClientPromptBody) : UpstreamPromptBody :=
  { parts := [{ type := "text", text := body.text }] }

/-- `GET /files/search` (lines 53-62): destructures `q`; `if (!q) return []`
(both a missing and an empty `q` are falsy); otherwise calls the upstream
`find.files` operation, given here as an oracle.  The boolean records
whether the upstream operation was invoked. -/
def filesSearchHandler (q : Option String) (findFiles : String → List String) :
    List String × Bool :=
  match q with
  | none => ([], false)
  | some qs => if qs = "" then ([], false) else (findFiles qs, true)

/-! ## Concrete traces used by witnesses and counterexamples -/

/-- Two submits drained to quiescence. -/
def esC1 : List Event :=
  [.submit "T1", .submit "T2", .tryStartDrain, .pop 0, .tick 0,
   .resolveOk 0, .pop 0, .tick 0, .resolveOk 0, .pop 0, .tick 0]

/-- The state reached by `esC1`. -/
def sC1 : SessionState := (runFrom initState esC1).getD initState

/-- Two submits, first dispatch in flight. -/
def esC2 : List Event :=
  [.submit "a", .submit "b", .tryStartDrain, .pop 0, .tick 0]

/-- The state reached by `esC2`. -/
def sC2 : SessionState := (runFrom initState esC2).getD initState

/-- Two submits, first dispatch in flight (prefix for the failure scenario). -/
def esC3pre : List Event :=
  [.submit "a", .submit "b", .tryStartDrain, .pop 0, .tick 0]

/-- The state reached by `esC3pre`. -/
def sC3pre : SessionState := (runFrom initState esC3pre).getD initState

/-- The state after the first dispatch fails. -/
def sC3fail : SessionState := (step sC3pre (.resolveFail 0)).getD initState

/-- Continuation after the failure: drain the remaining message and exit. -/
def esC3cont : List Event :=
  [.pop 0, .tick 0, .resolveOk 0, .pop 0, .tick 0]

/-- The quiescent state after the continuation. -/
def sC3fin : SessionState := (runFrom sC3fail esC3cont).getD initState

/-- One submit fully dispatched and resolved; the drain loop has observed the
empty queue and is awaiting its final tick: nothing is in flight and the
queue is empty, but `sending` is still set. -/
def esC4cex : List Event :=
  [.submit "a", .tryStartDrain, .pop 0, .tick 0, .resolveOk 0, .pop 0]

/-- The state reached by `esC4cex`. -/
def sC4cex : SessionState := (runFrom initState esC4cex).getD initState

/-- P5 scenario: two rapid submits `"a"` then `"b"`, no drain yet. -/
def esP5ab : List Event := [.submit "a", .submit "b"]

/-- P5 scenario: `"a"`'s dispatch has started. -/
def esP5aStart : List Event := esP5ab ++ [.tryStartDrain, .pop 0, .tick 0]

/-- P5 scenario: `"a"`'s dispatch has resolved. -/
def esP5aDone : List Event := esP5aStart ++ [.resolveOk 0]

/-- P5 scenario: `"b"` has been popped but its dispatch has not begun. -/
def esP5bPopped : List Event := esP5aDone ++ [.pop 0]

/-- P5 scenario: `"b"`'s own dispatch has begun. -/
def esP5bStart : List Event := esP5bPopped ++ [.tick 0]

/-- A submit while the first dispatch is in flight, then the drain pops it:
the popped message is held awaiting its marking step. -/
def esC5cex : List Event :=
  [.submit "a", .tryStartDrain, .pop 0, .tick 0, .submit "b",
   .resolveOk 0, .pop 0]

/-- The state reached by `esC5cex`. -/
def sC5cex : SessionState := (runFrom initState esC5cex).getD initState

/-- Two submits, drain not yet started: the second record is flagged queued. -/
def esC5w : List Event := [.submit "a", .submit "b"]

/-- A 12-element server result list, for exercising the 10-candidate cap. -/
def filesC9 : List String :=
  ["a/b.ts", "c.ts", "d/e/f.ts", "g", "h", "i", "j", "k", "l", "m", "n", "o"]

/-- The state reached by `esC5w`. -/
def sC5w : SessionState := (runFrom initState esC5w).getD initState

/-- The inductive invariant of the session page, proved to hold in every
reachable state:
* `flag_drains`, `one_loop`: `isProcessingQueue` is set exactly while a drain
  loop is active, and at most one drain loop ever exists;
* `sending_eq`: the `sending` flag mirrors `isProcessingQueue`;
* `fifo`: the dispatch history, followed by the popped-but-undispatched
  message and the queue contents, is exactly the submission history;
* `queue_lt`/`held_lt`/`flight_lt`/`rec_lt`: all ids in play were minted by
  the temporary-id counter;
* `queue_nodup`/`held_queue`: pending ids are pairwise distinct;
* `correspond`: a record flagged `isQueued` matches exactly one pending
  message (in the queue, or popped and awaiting its marking step);
* `cleared`: once a message's dispatch is in flight, no record with its id is
  still flagged `isQueued`. -/
structure Inv (s : SessionState) : Prop where
  flag_drains : s.isProcessingQueue = !s.drains.isEmpty
  sending_eq : s.sending = s.isProcessingQueue
  one_loop : s.drains.length ≤ 1
  fifo : s.dispatched ++ (held s.drains).map (·.text)
      ++ s.messageQueue.map (·.text) = s.enqueued
  queue_lt : ∀ q ∈ s.messageQueue, q.id < s.nextTempId
  held_lt : ∀ m ∈ held s.drains, m.id < s.nextTempId
  flight_lt : ∀ m ∈ flight s.drains, m.id < s.nextTempId
  queue_nodup : (s.messageQueue.map (·.id)).Nodup
  held_queue : ∀ m ∈ held s.drains, ∀ q ∈ s.messageQueue, m.id ≠ q.id
  rec_lt : ∀ r ∈ s.messages, r.isQueued = true → r.info.id < s.nextTempId
  correspond : ∀ r ∈ s.messages, r.isQueued = true →
      s.messageQueue.countP (fun q => q.id == r.info.id)
        + (held s.drains).countP (fun q => q.id == r.info.id) = 1
  cleared : ∀ m ∈ flight s.drains, ∀ r ∈ s.messages,
      r.info.id = m.id → r.isQueued = false

theorem initState_inv : Inv initState := by
  constructor <;> simp [initState, held, flight]

theorem singleton_of_get? {α : Type} {l : List α} {i : Nat} {x : α}
    (hlen : l.length ≤ 1) (hget : l.get? i = some x) : l = [x] ∧ i = 0 := by
  match l, i with
  | [], i => simp [List.get?] at hget
  | [a], 0 =>
      simp [List.get?] at hget
      exact ⟨by rw [hget], rfl⟩
  | [a], (i + 1) => simp [List.get?] at hget
  | a :: b :: rest, i => simp at hlen

theorem handleSubmit_inv {s : SessionState} (h : Inv s) (input : String) :
    Inv (handleSubmit s input) := by
  unfold handleSubmit
  by_cases ht : jsTrim input = ""
  · simpa [ht] using h
  · simp only [ht, if_false]
    refine ⟨h.flag_drains, h.sending_eq, h.one_loop, ?_, ?_, ?_, ?_, ?_, ?_, ?_, ?_, ?_⟩
    · rw [List.map_append, ← List.append_assoc, h.fifo]
      rfl
    · intro q hq
      rcases List.mem_append.mp hq with hq | hq
      · exact Nat.lt_succ_of_lt (h.queue_lt q hq)
      · simp at hq; subst hq; exact Nat.lt_succ_self _
    · intro m hm
      exact Nat.lt_succ_of_lt (h.held_lt m hm)
    · intro m hm
      exact Nat.lt_succ_of_lt (h.flight_lt m hm)
    · rw [List.map_append, List.nodup_append]
      refine ⟨h.queue_nodup, by simp, ?_⟩
      intro a ha hb
      simp at hb
      rcases List.mem_map.mp ha with ⟨q, hq, hqa⟩
      exact absurd (hb ▸ hqa) (Nat.ne_of_lt (h.queue_lt q hq))
    · intro m hm q hq
      rcases List.mem_append.mp hq with hq | hq
      · exact h.held_queue m hm q hq
      · simp at hq; subst hq
        exact Nat.ne_of_lt (h.held_lt m hm)
    · intro r hr hrq
      rcases List.mem_append.mp hr with hr | hr
      · exact Nat.lt_succ_of_lt (h.rec_lt r hr hrq)
      · simp at hr; subst hr; exact Nat.lt_succ_self _
    · intro r hr hrq
      rcases List.mem_append.mp hr with hr | hr
      · rw [List.countP_append]
        have hne : (s.nextTempId == r.info.id) = false := by
          simp [Nat.ne_of_gt (h.rec_lt r hr hrq)]
        have hx : List.countP (fun q => q.id == r.info.id)
            [(⟨s.nextTempId, jsTrim input⟩ : QueuedMessage)] = 0 := by
          simp [List.countP_cons, hne]
        have hc := h.correspond r hr hrq
        dsimp only
        omega
      · simp at hr; subst hr
        simp only [mkOptimisticMessage]
        rw [List.countP_append]
        have h1 : s.messageQueue.countP (fun q => q.id == s.nextTempId) = 0 := by
          rw [List.countP_eq_zero]
          intro q hq
          simp [Nat.ne_of_lt (h.queue_lt q hq)]
        have h2 : (held s.drains).countP (fun q => q.id == s.nextTempId) = 0 := by
          rw [List.countP_eq_zero]
          intro m hm
          simp [Nat.ne_of_lt (h.held_lt m hm)]
        simp [h1, h2]
    · intro m hm r hr hid
      rcases List.mem_append.mp hr with hr | hr
      · exact h.cleared m hm r hr hid
      · simp at hr; subst hr
        exact absurd hid.symm (Nat.ne_of_lt (h.flight_lt m hm))

@[simp] theorem held_nil : held [] = [] := rfl

@[simp] theorem held_cons (pc : DrainPC) (rest : List DrainPC) :
    held (pc :: rest) = pcHeld pc ++ held rest := rfl

@[simp] theorem flight_nil : flight [] = [] := rfl

@[simp] theorem flight_cons (pc : DrainPC) (rest : List DrainPC) :
    flight (pc :: rest) = pcFlight pc ++ flight rest := rfl

theorem step_inv {s s' : SessionState} {e : Event} (h : Inv s)
    (hs : step s e = some s') : Inv s' := by
  cases e with
  | submit input =>
      simp only [step, Option.some.injEq] at hs
      exact hs ▸ handleSubmit_inv h input
  | tryStartDrain =>
      simp only [step] at hs
      split at hs
      · rw [Option.some.injEq] at hs
        exact hs ▸ h
      · split at hs
        · rw [Option.some.injEq] at hs
          exact hs ▸ h
        · rename_i hflag
          have hflag' : s.isProcessingQueue = false := by simpa using hflag
          have hd : s.drains = [] := by
            have hfd := h.flag_drains
            rw [hflag'] at hfd
            cases hde : s.drains with
            | nil => rfl
            | cons a l => rw [hde] at hfd; simp at hfd
          rw [hd] at hs
          simp only [List.nil_append] at hs
          cases hs
          refine ⟨by simp, by simp, by simp, ?_, h.queue_lt, ?_, ?_,
            h.queue_nodup, ?_, h.rec_lt, ?_, ?_⟩
          · have hf := h.fifo
            rw [hd] at hf
            simpa [pcHeld] using hf
          · intro m hm; simp [pcHeld] at hm
          · intro m hm; simp [pcFlight] at hm
          · intro m hm q hq; simp [pcHeld] at hm
          · intro r hr hrq
            have hc := h.correspond r hr hrq
            rw [hd] at hc
            simpa [pcHeld] using hc
          · intro m hm; simp [pcFlight] at hm
  | pop i =>
      simp only [step] at hs
      split at hs
      · rename_i heq
        obtain ⟨hd, hi⟩ := singleton_of_get? h.one_loop heq
        subst hi
        rw [hd] at hs
        simp only [List.set_cons_zero] at hs
        split at hs
        · rename_i hq
          cases hs
          refine ⟨?_, h.sending_eq, by simp, ?_, h.queue_lt, ?_, ?_,
            h.queue_nodup, ?_, h.rec_lt, ?_, ?_⟩
          · have := h.flag_drains; rw [hd] at this; simpa using this
          · have hf := h.fifo
            rw [hd] at hf
            simpa [pcHeld] using hf
          · intro m hm; simp [pcHeld] at hm
          · intro m hm; simp [pcFlight] at hm
          · intro m hm q hq'; simp [pcHeld] at hm
          · intro r hr hrq
            have hc := h.correspond r hr hrq
            rw [hd] at hc
            simpa [pcHeld] using hc
          · intro m hm; simp [pcFlight] at hm
        · rename_i hmsg rest hq
          cases hs
          have hnodup := h.queue_nodup
          rw [hq] at hnodup
          simp only [List.map_cons, List.nodup_cons] at hnodup
          refine ⟨?_, h.sending_eq, by simp, ?_, ?_, ?_, ?_, hnodup.2, ?_,
            h.rec_lt, ?_, ?_⟩
          · have := h.flag_drains; rw [hd] at this; simpa using this
          · have hf := h.fifo
            rw [hd, hq] at hf
            simp only [held_cons, held_nil, pcHeld, List.append_nil,
              List.nil_append, List.map_cons, List.map_nil] at hf ⊢
            simpa using hf
          · intro q hq'
            exact h.queue_lt q (by rw [hq]; exact List.mem_cons_of_mem _ hq')
          · intro m hm
            simp [pcHeld] at hm
            rw [hm]
            exact h.queue_lt hmsg (by rw [hq]; exact List.mem_cons_self _ _)
          · intro m hm; simp [pcFlight] at hm
          · intro m hm q hq'
            simp [pcHeld] at hm
            rw [hm]
            intro hcontra
            exact hnodup.1 (hcontra ▸ List.mem_map_of_mem (·.id) hq')
          · intro r hr hrq
            have hc := h.correspond r hr hrq
            rw [hq, hd] at hc
            simp only [held_cons, held_nil, pcHeld, List.append_nil,
              List.countP_nil, List.countP_cons, Nat.add_zero] at hc
            simp only [held_cons, held_nil, pcHeld, List.append_nil,
              List.nil_append, List.countP_cons, List.countP_nil,
              Nat.zero_add]
            omega
          · intro m hm; simp [pcFlight] at hm
      · simp at hs
  | tick i =>
      simp only [step] at hs
      split at hs
      · rename_i heq
        obtain ⟨hd, hi⟩ := singleton_of_get? h.one_loop heq
        subst hi
        rw [hd] at hs
        simp only [List.eraseIdx] at hs
        cases hs
        refine ⟨by simp, by simp, by simp, ?_, h.queue_lt, ?_, ?_,
          h.queue_nodup, ?_, h.rec_lt, ?_, ?_⟩
        · have hf := h.fifo
          rw [hd] at hf
          simpa [pcHeld] using hf
        · intro m hm; simp [pcHeld] at hm
        · intro m hm; simp [pcFlight] at hm
        · intro m hm q hq; simp [pcHeld] at hm
        · intro r hr hrq
          have hc := h.correspond r hr hrq
          rw [hd] at hc
          simpa [pcHeld] using hc
        · intro m hm; simp [pcFlight] at hm
      · rename_i m heq
        obtain ⟨hd, hi⟩ := singleton_of_get? h.one_loop heq
        subst hi
        rw [hd] at hs
        simp only [List.set_cons_zero] at hs
        cases hs
        have hmlt : m.id < s.nextTempId := by
          refine h.held_lt m ?_
          rw [hd]; simp [pcHeld]
        refine ⟨?_, h.sending_eq, by simp, ?_, h.queue_lt, ?_, ?_,
          h.queue_nodup, ?_, ?_, ?_, ?_⟩
        · have := h.flag_drains; rw [hd] at this; simpa using this
        · have hf := h.fifo
          rw [hd] at hf
          simp only [held_cons, held_nil, pcHeld, List.append_nil,
            List.nil_append, List.map_cons, List.map_nil] at hf ⊢
          simpa [List.append_assoc] using hf
        · intro m' hm'; simp [pcHeld] at hm'
        · intro m' hm'
          simp [pcFlight] at hm'
          rw [hm']
          exact hmlt
        · intro m' hm' q hq'; simp [pcHeld] at hm'
        · intro r hr hrq
          unfold markDequeued at hr
          rcases List.mem_map.mp hr with ⟨r₀, hr₀, hr₀r⟩
          by_cases hid : r₀.info.id = m.id
          · rw [if_pos hid] at hr₀r
            rw [← hr₀r] at hrq
            simp at hrq
          · rw [if_neg hid] at hr₀r
            subst hr₀r
            exact h.rec_lt r₀ hr₀ hrq
        · intro r hr hrq
          unfold markDequeued at hr
          rcases List.mem_map.mp hr with ⟨r₀, hr₀, hr₀r⟩
          by_cases hid : r₀.info.id = m.id
          · rw [if_pos hid] at hr₀r
            rw [← hr₀r] at hrq
            simp at hrq
          · rw [if_neg hid] at hr₀r
            subst hr₀r
            have hc := h.correspond r₀ hr₀ hrq
            rw [hd] at hc
            have hne : (m.id == r₀.info.id) = false := by
              simp only [beq_eq_false_iff_ne, ne_eq]
              exact fun hh => hid hh.symm
            simp only [held_cons, held_nil, pcHeld, List.append_nil,
              List.countP_cons, List.countP_nil, Nat.zero_add, hne,
              if_false, Nat.add_zero] at hc
            simpa [pcHeld] using hc
        · intro m' hm' r hr hid
          simp [pcFlight] at hm'
          rw [hm'] at hid
          unfold markDequeued at hr
          rcases List.mem_map.mp hr with ⟨r₀, hr₀, hr₀r⟩
          by_cases hid₀ : r₀.info.id = m.id
          · rw [if_pos hid₀] at hr₀r
            rw [← hr₀r]
          · rw [if_neg hid₀] at hr₀r
            subst hr₀r
            exact absurd hid hid₀
      · simp at hs
  | resolveOk i =>
      simp only [step] at hs
      split at hs
      · rename_i m heq
        obtain ⟨hd, hi⟩ := singleton_of_get? h.one_loop heq
        subst hi
        rw [hd] at hs
        simp only [List.set_cons_zero] at hs
        cases hs
        refine ⟨?_, h.sending_eq, by simp, ?_, h.queue_lt, ?_, ?_,
          h.queue_nodup, ?_, h.rec_lt, ?_, ?_⟩
        · have := h.flag_drains; rw [hd] at this; simpa using this
        · have hf := h.fifo
          rw [hd] at hf
          simpa [pcHeld] using hf
        · intro m' hm'; simp [pcHeld] at hm'
        · intro m' hm'; simp [pcFlight] at hm'
        · intro m' hm' q hq'; simp [pcHeld] at hm'
        · intro r hr hrq
          have hc := h.correspond r hr hrq
          rw [hd] at hc
          simpa [pcHeld] using hc
        · intro m' hm'; simp [pcFlight] at hm'
      · simp at hs
  | resolveFail i =>
      simp only [step] at hs
      split at hs
      · rename_i m heq
        obtain ⟨hd, hi⟩ := singleton_of_get? h.one_loop heq
        subst hi
        rw [hd] at hs
        simp only [List.set_cons_zero] at hs
        cases hs
        refine ⟨?_, h.sending_eq, by simp, ?_, h.queue_lt, ?_, ?_,
          h.queue_nodup, ?_, ?_, ?_, ?_⟩
        · have := h.flag_drains; rw [hd] at this; simpa using this
        · have hf := h.fifo
          rw [hd] at hf
          simpa [pcHeld] using hf
        · intro m' hm'; simp [pcHeld] at hm'
        · intro m' hm'; simp [pcFlight] at hm'
        · intro m' hm' q hq'; simp [pcHeld] at hm'
        · intro r hr hrq
          exact h.rec_lt r (List.mem_of_mem_filter hr) hrq
        · intro r hr hrq
          have hc := h.correspond r (List.mem_of_mem_filter hr) hrq
          rw [hd] at hc
          simpa [pcHeld] using hc
        · intro m' hm'; simp [pcFlight] at hm'
      · simp at hs
  | reconcile server =>
      simp only [step] at hs
      split at hs
      · rename_i hall
        cases hs
        have hfalse : ∀ r ∈ server, r.isQueued = false := by
          intro r hr
          have := List.all_eq_true.mp hall r hr
          simpa using this
        refine ⟨h.flag_drains, h.sending_eq, h.one_loop, h.fifo, h.queue_lt,
          h.held_lt, h.flight_lt, h.queue_nodup, h.held_queue, ?_, ?_, ?_⟩
        · intro r hr hrq
          rw [hfalse r hr] at hrq
          exact absurd hrq (by simp)
        · intro r hr hrq
          rw [hfalse r hr] at hrq
          exact absurd hrq (by simp)
        · intro m' hm' r hr hid
          exact hfalse r hr
      · simp at hs
theorem runFrom_inv : ∀ (es : List Event) (s₀ s : SessionState),
    Inv s₀ → runFrom s₀ es = some s → Inv s := by
  intro es
  induction es with
  | nil =>
      intro s₀ s h hr
      simp only [runFrom, Option.some.injEq] at hr
      exact hr ▸ h
  | cons e es ih =>
      intro s₀ s h hr
      simp only [runFrom] at hr
      split at hr
      · rename_i s₁ hstep
        exact ih s₁ s (step_inv h hstep) hr
      · exact absurd hr (by simp)

theorem reach_inv {es : List Event} {s : SessionState}
    (hr : runFrom initState es = some s) : Inv s :=
  runFrom_inv es initState s initState_inv hr

theorem runFrom_append (s : SessionState) (es₁ es₂ : List Event) :
    runFrom s (es₁ ++ es₂) = (runFrom s es₁).bind (fun s' => runFrom s' es₂) := by
  induction es₁ generalizing s with
  | nil => simp [runFrom]
  | cons e es ih =>
      simp only [List.cons_append, runFrom]
      cases step s e with
      | none => simp
      | some s₁ => simpa using ih s₁

theorem flight_length_le : ∀ ds : List DrainPC, (flight ds).length ≤ ds.length := by
  intro ds
  induction ds with
  | nil => simp [flight]
  | cons pc rest ih =>
      simp only [flight_cons, List.length_append]
      have : (pcFlight pc).length ≤ 1 := by
        cases pc <;> simp [pcFlight]
      simp only [List.length_cons]
      omega

/-- C1 (FIFO dispatch order): in every reachable state, the dispatch history
followed by the not-yet-dispatched texts (the popped-but-unmarked message,
then the queue) equals the full submission history in order; in particular,
whenever the drain has finished and the queue is empty, the texts dispatched
— one network call each, recorded at the moment the call is issued — are
exactly the trimmed texts submitted, in exactly submission order, including
submissions made while a drain was in progress. -/
theorem fifo_dispatch_order (es : List Event) (s : SessionState)
    (hr : runFrom initState es = some s) :
    (s.dispatched ++ (held s.drains).map (·.text)
        ++ s.messageQueue.map (·.text) = s.enqueued)
    ∧ (s.drains = [] → s.messageQueue = [] → s.dispatched = s.enqueued) := by
  have h := reach_inv hr
  refine ⟨h.fifo, fun hd hq => ?_⟩
  have hf := h.fifo
  rw [hd, hq] at hf
  simpa using hf

/-- Witness for C1: a concrete run with submissions `"T1"`, `"T2"` (the
second made while the drain is in progress) reaching quiescence dispatches
exactly `["T1", "T2"]`. -/
theorem fifo_dispatch_order_witness :
    runFrom initState esC1 = some sC1 ∧ sC1.drains = []
      ∧ sC1.messageQueue = [] ∧ sC1.dispatched = ["T1", "T2"]
      ∧ sC1.enqueued = ["T1", "T2"] ∧ sC1.dispatched = sC1.enqueued := by
  refine ⟨rfl, rfl, rfl, rfl, rfl, ?_⟩
  exact (fifo_dispatch_order esC1 sC1 rfl).2 rfl rfl

/-- C2 (single in-flight dispatch): in every reachable state at most one
drain loop is active (the `isProcessingQueue` flag is set exactly while one
is, which is what blocks a second one from starting) and at most one
dispatch network call is unresolved; a second dispatch cannot start until
the previous one's outcome has been processed, since dispatches are issued
only by the unique loop, which blocks on the outcome. -/
theorem single_in_flight (es : List Event) (s : SessionState)
    (hr : runFrom initState es = some s) :
    s.drains.length ≤ 1 ∧ (flight s.drains).length ≤ 1
      ∧ s.isProcessingQueue = !s.drains.isEmpty := by
  have h := reach_inv hr
  exact ⟨h.one_loop, le_trans (flight_length_le s.drains) h.one_loop,
    h.flag_drains⟩

/-- Witness for C2: a concrete reachable state with a dispatch in flight and
another message queued satisfies the bounds. -/
theorem single_in_flight_witness :
    runFrom initState esC2 = some sC2
      ∧ flight sC2.drains = [⟨0, "a"⟩]
      ∧ sC2.messageQueue = [⟨1, "b"⟩]
      ∧ sC2.drains.length ≤ 1 ∧ (flight sC2.drains).length ≤ 1 := by
  refine ⟨rfl, rfl, rfl, ?_, ?_⟩
  · exact (single_in_flight esC2 sC2 rfl).1
  · exact (single_in_flight esC2 sC2 rfl).2.1

/-- C3 (failure cleanup without aborting the queue): if the dispatch of the
in-flight queued message `m` fails, then immediately after the failure
handling no record with `m`'s id remains in the message list and a
user-visible error is set; and every continuation of the run still satisfies
the FIFO property, so all messages queued behind `m` are still dispatched in
order and no text is ever dispatched more often than it was submitted — in
particular `m` is never retried. -/
theorem failure_cleanup (es : List Event) (s : SessionState) (i : Nat)
    (m : QueuedMessage) (s' : SessionState)
    (hr : runFrom initState es = some s)
    (hflight : s.drains.get? i = some (.inFlight m))
    (hstep : step s (.resolveFail i) = some s') :
    (∀ r ∈ s'.messages, r.info.id ≠ m.id)
    ∧ s'.sendError = some "Failed to send message"
    ∧ ∀ es₂ s₂, runFrom s' es₂ = some s₂ →
        (s₂.dispatched ++ (held s₂.drains).map (·.text)
            ++ s₂.messageQueue.map (·.text) = s₂.enqueued)
        ∧ (s₂.drains = [] → s₂.messageQueue = [] →
            s₂.dispatched = s₂.enqueued) := by
  have hrun : ∀ es₂ s₂, runFrom s' es₂ = some s₂ →
      runFrom initState (es ++ (Event.resolveFail i :: es₂)) = some s₂ := by
    intro es₂ s₂ hcont
    rw [runFrom_append, hr, Option.some_bind]
    simp only [runFrom, hstep]
    exact hcont
  simp only [step, hflight] at hstep
  rw [Option.some.injEq] at hstep
  subst hstep
  refine ⟨?_, rfl, ?_⟩
  · intro r hr'
    have hp := List.of_mem_filter hr'
    simpa using hp
  · intro es₂ s₂ hcont
    have h₂ := reach_inv (hrun es₂ s₂ hcont)
    refine ⟨h₂.fifo, fun hd hq => ?_⟩
    have hf := h₂.fifo
    rw [hd, hq] at hf
    simpa using hf

/-- Witness for C3: a concrete run where the dispatch of `"a"` fails; its
record disappears, the error is set, and the continuation still dispatches
the queued `"b"`, reaching quiescence with history
`["a", "b"]` — one dispatch per submission, no retry of `"a"`. -/
theorem failure_cleanup_witness :
    runFrom initState esC3pre = some sC3pre
      ∧ sC3pre.drains.get? 0 = some (.inFlight ⟨0, "a"⟩)
      ∧ step sC3pre (.resolveFail 0) = some sC3fail
      ∧ sC3fail.sendError = some "Failed to send message"
      ∧ recQueued sC3fail 0 = none
      ∧ runFrom sC3fail esC3cont = some sC3fin
      ∧ sC3fin.dispatched = ["a", "b"]
      ∧ sC3fin.dispatched = sC3fin.enqueued := by
  refine ⟨rfl, rfl, rfl, ?_, rfl, rfl, rfl, ?_⟩
  · exact (failure_cleanup esC3pre sC3pre 0 ⟨0, "a"⟩ sC3fail rfl rfl rfl).2.1
  · exact ((failure_cleanup esC3pre sC3pre 0 ⟨0, "a"⟩ sC3fail rfl rfl
      rfl).2.2 esC3cont sC3fin rfl).2 rfl rfl

/-- C4 counterexample: the claim states the record is created with
`isQueued` equal to "the queue was non-empty OR a send is currently in
flight".  In the reachable state `sC4cex` the queue is empty and no dispatch
is unresolved (the previous dispatch's outcome has been fully processed), so
the claimed flag is `false`; yet a submit at this moment creates its record
with `isQueued = true`, because the source computes the flag from `sending`,
which stays set while the drain loop is winding down. -/
theorem enqueue_isQueued_flag_counterexample :
    runFrom initState esC4cex = some sC4cex
    ∧ sC4cex.messageQueue = []
    ∧ flight sC4cex.drains = []
    ∧ recQueued (handleSubmit sC4cex "c") 1 = some true :=
  ⟨rfl, rfl, rfl, rfl⟩

/-- C4 (amended): every submit of input with non-empty trim, at any state,
creates exactly one optimistic record appended to the message list whose
`isQueued` equals `sending OR queue non-empty` at the moment of the call
(`sending` being the drain-active flag, not merely "a network call is
unresolved"); and in the two-rapid-enqueues scenario `"a"` then `"b"` with
no drain yet in progress, `"a"`'s record has `isQueued = false` once its
dispatch starts, `"b"`'s record keeps `isQueued = true` until `"a"`'s
dispatch resolves (and still after it resolves, while `"b"` awaits its own
turn), and `"b"`'s record transitions to `isQueued = false` exactly when
`"b"`'s own dispatch begins. -/
theorem enqueue_isQueued_flag (s : SessionState) (input : String)
    (ht : jsTrim input ≠ "") :
    ((handleSubmit s input).messages = s.messages ++
      [mkOptimisticMessage s.nextTempId (jsTrim input)
        (s.sending || !s.messageQueue.isEmpty)])
    ∧ ((runFrom initState esP5aStart).map
        (fun st => (recQueued st 0, recQueued st 1, flight st.drains))
        = some (some false, some true, [⟨0, "a"⟩]))
    ∧ ((runFrom initState esP5aDone).map (fun st => recQueued st 1)
        = some (some true))
    ∧ ((runFrom initState esP5bPopped).map (fun st => recQueued st 1)
        = some (some true))
    ∧ ((runFrom initState esP5bStart).map
        (fun st => (recQueued st 1, flight st.drains))
        = some (some false, [⟨1, "b"⟩])) := by
  refine ⟨?_, rfl, rfl, rfl, rfl⟩
  simp [handleSubmit, ht]

/-- Witness for C4 (amended): the general creation rule applied at the
initial state with input `" hello "`. -/
theorem enqueue_isQueued_flag_witness :
    jsTrim " hello " ≠ ""
    ∧ (handleSubmit initState " hello ").messages =
        [mkOptimisticMessage 0 "hello" false] := by
  refine ⟨by decide, ?_⟩
  exact (enqueue_isQueued_flag initState " hello " (by decide)).1

/-- C5 counterexample: in the reachable state `sC5cex` the record with id 1
still has `isQueued = true`, but no `QueuedMessage` with id 1 is present in
the submission queue — it has just been dequeued by the drain and awaits the
marking step — refuting "corresponds to exactly one QueuedMessage still
present in the Submission Queue" as an invariant of every reachable state. -/
theorem queued_correspondence_counterexample :
    runFrom initState esC5cex = some sC5cex
    ∧ recQueued sC5cex 1 = some true
    ∧ sC5cex.messageQueue = []
    ∧ sC5cex.messageQueue.countP (fun q => q.id == 1) = 0
    ∧ held sC5cex.drains = [⟨1, "b"⟩] :=
  ⟨rfl, rfl, rfl, rfl, rfl⟩

/-- C5 (amended): in every reachable state, an optimistic record with
`isQueued = true` corresponds to exactly one pending `QueuedMessage`,
counted across the submission queue and the just-dequeued slot of the drain
loop (the message popped but not yet marked); and the record's flag is
cleared before (never after) the dispatch attempt: while a message's
dispatch is in flight, no record with its id is still flagged queued. -/
theorem queued_correspondence (es : List Event) (s : SessionState)
    (hr : runFrom initState es = some s) :
    (∀ r ∈ s.messages, r.isQueued = true →
      s.messageQueue.countP (fun q => q.id == r.info.id)
        + (held s.drains).countP (fun q => q.id == r.info.id) = 1)
    ∧ (∀ m ∈ flight s.drains, ∀ r ∈ s.messages, r.info.id = m.id →
        r.isQueued = false) :=
  ⟨(reach_inv hr).correspond, (reach_inv hr).cleared⟩

/-- Witness for C5 (amended): after two rapid submits, the queued record
with id 1 corresponds to exactly one pending message. -/
theorem queued_correspondence_witness :
    runFrom initState esC5w = some sC5w
    ∧ recQueued sC5w 1 = some true
    ∧ sC5w.messageQueue.countP (fun q => q.id == 1)
        + (held sC5w.drains).countP (fun q => q.id == 1) = 1 := by
  refine ⟨rfl, rfl, ?_⟩
  exact (queued_correspondence esC5w sC5w rfl).1
    (mkOptimisticMessage 1 "b" true) (by decide) rfl

/-- C6 (optimistic visibility): a submit of input with non-empty trim, at
any state — hence before any network response arrives — appends to the
session's message list exactly one record with role `"user"`, whose parts
are exactly one text fragment equal to the trimmed input, carrying the same
fresh temporary id as the `QueuedMessage` appended to the queue. -/
theorem optimistic_visibility (s : SessionState) (input : String)
    (ht : jsTrim input ≠ "") :
    ((handleSubmit s input).messages = s.messages ++
      [{ info := { id := s.nextTempId, role := "user" }
         parts := [{ type := "text", text := jsTrim input }]
         isQueued := s.sending || !s.messageQueue.isEmpty }])
    ∧ (handleSubmit s input).messageQueue
        = s.messageQueue ++ [{ id := s.nextTempId, text := jsTrim input }] := by
  constructor <;> simp [handleSubmit, ht, mkOptimisticMessage]

/-- Witness for C6: submitting `"hello"` in the initial state immediately
yields a message list containing the record with text `"hello"`, role
`"user"` and the stamped temporary id 0. -/
theorem optimistic_visibility_witness :
    jsTrim "hello" ≠ ""
    ∧ (handleSubmit initState "hello").messages =
        [{ info := { id := 0, role := "user" }
           parts := [{ type := "text", text := "hello" }]
           isQueued := false }]
    ∧ (handleSubmit initState "hello").messageQueue = [{ id := 0, text := "hello" }] := by
  refine ⟨by decide, ?_, ?_⟩
  · exact (optimistic_visibility initState "hello" (by decide)).1
  · exact (optimistic_visibility initState "hello" (by decide)).2

theorem lastIndexOf_charac (c : Char) : ∀ l : List Char,
    (∀ i, lastIndexOf c l = some i →
      (l.get? i = some c ∧ ∀ j, i < j → l.get? j ≠ some c))
    ∧ (lastIndexOf c l = none → ∀ j, l.get? j ≠ some c)
    ∧ (∀ i, l.get? i = some c → (∀ j, i < j → l.get? j ≠ some c) →
        lastIndexOf c l = some i) := by
  intro l
  induction l with
  | nil =>
      refine ⟨?_, ?_, ?_⟩
      · intro i h; simp [lastIndexOf] at h
      · intro _ j; simp [List.get?]
      · intro i h; simp [List.get?] at h
  | cons x xs ih =>
      obtain ⟨ih1, ih2, ih3⟩ := ih
      refine ⟨?_, ?_, ?_⟩
      · intro i h
        simp only [lastIndexOf] at h
        cases hx : lastIndexOf c xs with
        | some k =>
            simp only [hx, Option.some.injEq] at h
            subst h
            obtain ⟨hkc, hkmax⟩ := ih1 k hx
            refine ⟨by simpa [List.get?] using hkc, ?_⟩
            intro j hj
            cases j with
            | zero => omega
            | succ j' =>
                simp only [List.get?]
                exact hkmax j' (by omega)
        | none =>
            simp only [hx] at h
            split at h
            · rename_i hxc
              rw [Option.some.injEq] at h
              subst h
              refine ⟨by simp [List.get?, hxc], ?_⟩
              intro j hj
              cases j with
              | zero => omega
              | succ j' =>
                  simp only [List.get?]
                  exact ih2 hx j'
            · exact absurd h (by simp)
      · intro h j
        simp only [lastIndexOf] at h
        cases hx : lastIndexOf c xs with
        | some k => simp [hx] at h
        | none =>
            simp only [hx] at h
            split at h
            · simp at h
            · rename_i hxc
              cases j with
              | zero =>
                  simp only [List.get?]
                  intro hc
                  rw [Option.some.injEq] at hc
                  exact hxc hc
              | succ j' =>
                  simp only [List.get?]
                  exact ih2 hx j'
      · intro i hc hmax
        simp only [lastIndexOf]
        cases hx : lastIndexOf c xs with
        | some k =>
            obtain ⟨hkc, hkmax⟩ := ih1 k hx
            cases i with
            | zero =>
                exact absurd (show (x :: xs).get? (k + 1) = some c by
                  simpa [List.get?] using hkc) (hmax (k + 1) (by omega))
            | succ i' =>
                have hi' : xs.get? i' = some c := by simpa [List.get?] using hc
                have heq : i' = k := by
                  rcases Nat.lt_trichotomy i' k with hlt | heq | hgt
                  · exact absurd (show (x :: xs).get? (k + 1) = some c by
                      simpa [List.get?] using hkc) (hmax (k + 1) (by omega))
                  · exact heq
                  · exact absurd hi' (hkmax i' hgt)
                simp [hx, heq]
        | none =>
            cases i with
            | zero =>
                have hxc : x = c := by simpa [List.get?] using hc
                simp [hx, hxc]
            | succ i' =>
                have hi' : xs.get? i' = some c := by simpa [List.get?] using hc
                exact absurd hi' (ih2 hx i')

theorem lastIndexOf_eq_some_iff (c : Char) (l : List Char) (i : Nat) :
    lastIndexOf c l = some i ↔
      (l.get? i = some c ∧ ∀ j, i < j → l.get? j ≠ some c) :=
  ⟨(lastIndexOf_charac c l).1 i,
   fun h => (lastIndexOf_charac c l).2.2 i h.1 h.2⟩

theorem contains_eq_false_iff (l : List Char) (c : Char) :
    l.contains c = false ↔ ∀ j x, l.get? j = some x → x ≠ c := by
  constructor
  · intro h j x hx hxc
    subst hxc
    have hmem : x ∈ l := by
      rw [List.mem_iff_get?]
      exact ⟨j, hx⟩
    have hcon : l.contains x = true := by simpa using hmem
    rw [h] at hcon
    exact absurd hcon (by simp)
  · intro h
    cases hcc : l.contains c with
    | false => rfl
    | true =>
        have hmem : c ∈ l := by simpa using hcc
        rw [List.mem_iff_get?] at hmem
        obtain ⟨n, hn⟩ := hmem
        exact absurd rfl (h n c hn)

theorem getD_of_get? {l : List Char} {i : Nat} {e d : Char}
    (h : l.get? i = some e) : l.getD i d = e := by
  simp [List.getD_eq_getElem?_getD, ← List.get?_eq_getElem?, h]

theorem specAt_of_open {value : List Char} {cursor atIndex : Nat}
    (hx : lastIndexOf '@' (value.take cursor) = some atIndex)
    (hb : ((charBefore (value.take cursor) atIndex == ' '
          || charBefore (value.take cursor) atIndex == '\n'
          || atIndex == 0)
        && !(((value.take cursor).drop (atIndex + 1)).contains ' ')
        && !(((value.take cursor).drop (atIndex + 1)).contains '\n')) = true) :
    SpecMentionActiveAt value cursor atIndex := by
  obtain ⟨hcAt, hmax⟩ := (lastIndexOf_eq_some_iff '@' _ atIndex).mp hx
  simp only [Bool.and_eq_true, Bool.or_eq_true, beq_iff_eq,
    Bool.not_eq_true'] at hb
  obtain ⟨⟨hbd, hsp⟩, hnl⟩ := hb
  refine ⟨hcAt, hmax, ?_, ?_⟩
  · by_cases hz0 : atIndex = 0
    · exact Or.inl hz0
    · have hlen : atIndex < (value.take cursor).length := by
        have := List.get?_eq_some.mp hcAt
        exact this.1
      have h1 : atIndex - 1 < (value.take cursor).length := by omega
      cases hgd : (value.take cursor).get? (atIndex - 1) with
      | none =>
          rw [List.get?_eq_none] at hgd
          omega
      | some e =>
          have hD : charBefore (value.take cursor) atIndex = e := by
            unfold charBefore
            rw [if_pos (Nat.pos_of_ne_zero hz0)]
            exact getD_of_get? hgd
          refine Or.inr ⟨e, rfl, ?_⟩
          rcases hbd with (hsp' | hnl') | hz
          · exact Or.inl (by rw [← hD]; exact hsp')
          · exact Or.inr (by rw [← hD]; exact hnl')
          · exact absurd hz hz0
  · intro j c hj hgc
    have hdrop : ((value.take cursor).drop (atIndex + 1)).get?
        (j - (atIndex + 1)) = some c := by
      rw [List.get?_drop]
      rw [show atIndex + 1 + (j - (atIndex + 1)) = j by omega]
      exact hgc
    exact ⟨(contains_eq_false_iff _ ' ').mp hsp _ c hdrop,
           (contains_eq_false_iff _ '\n').mp hnl _ c hdrop⟩

theorem bool_of_specAt {value : List Char} {cursor i : Nat}
    (hspec : SpecMentionActiveAt value cursor i) :
    lastIndexOf '@' (value.take cursor) = some i
    ∧ ((charBefore (value.take cursor) i == ' '
          || charBefore (value.take cursor) i == '\n'
          || i == 0)
        && !(((value.take cursor).drop (i + 1)).contains ' ')
        && !(((value.take cursor).drop (i + 1)).contains '\n')) = true := by
  obtain ⟨hcAt, hmax, hbound, hnws⟩ := hspec
  refine ⟨(lastIndexOf_eq_some_iff '@' _ i).mpr ⟨hcAt, hmax⟩, ?_⟩
  simp only [Bool.and_eq_true, Bool.or_eq_true, beq_iff_eq,
    Bool.not_eq_true']
  refine ⟨⟨?_, ?_⟩, ?_⟩
  · rcases hbound with hz | ⟨c, hgc, hcw⟩
    · exact Or.inr hz
    · by_cases hz0 : i = 0
      · exact Or.inr hz0
      · have hD : charBefore (value.take cursor) i = c := by
          unfold charBefore
          rw [if_pos (Nat.pos_of_ne_zero hz0)]
          exact getD_of_get? hgc
        rcases hcw with h' | h'
        · exact Or.inl (Or.inl (by rw [hD]; exact h'))
        · exact Or.inl (Or.inr (by rw [hD]; exact h'))
  · rw [contains_eq_false_iff]
    intro j x hx
    have hg : (value.take cursor).get? (i + 1 + j) = some x := by
      rw [← List.get?_drop]
      exact hx
    exact (hnws (i + 1 + j) x (by omega) hg).1
  · rw [contains_eq_false_iff]
    intro j x hx
    have hg : (value.take cursor).get? (i + 1 + j) = some x := by
      rw [← List.get?_drop]
      exact hx
    exact (hnws (i + 1 + j) x (by omega) hg).2

/-- C7 (mention trigger rule): for every `fullText` and `cursorOffset`, the
context computed by `handleInputChange` is open exactly when the spec's
characterization holds — the nearest `@` scanning backward from the cursor
is preceded by whitespace (a space) or a newline or sits at offset 0, and
the text between `@` and the cursor contains no whitespace or newline; when
open, the query is that in-between text and the anchor is the index of the
`@`.  In particular `"hello @re"` at cursor 9 is active with query `"re"`
and anchor 6, and `"hello@re"` at cursor 8 is inactive. -/
theorem mention_trigger (value : List Char) (cursor : Nat) :
    ((handleInputChange value cursor).isOpen = true ↔
      SpecMentionActive value cursor)
    ∧ (∀ i q, handleInputChange value cursor =
        { isOpen := true, searchQuery := q, mentionStart := some i,
          selectedIndex := 0 } →
        SpecMentionActiveAt value cursor i
          ∧ q = (value.take cursor).drop (i + 1))
    ∧ handleInputChange "hello @re".data 9 =
        { isOpen := true, searchQuery := "re".data, mentionStart := some 6,
          selectedIndex := 0 }
    ∧ handleInputChange "hello@re".data 8 = closedMention := by
  refine ⟨⟨?_, ?_⟩, ?_, rfl, rfl⟩
  · intro h
    unfold handleInputChange at h
    cases hx : lastIndexOf '@' (value.take cursor) with
    | none =>
        simp only [hx] at h
        simp [closedMention] at h
    | some atIndex =>
        simp only [hx] at h
        split at h
        · rename_i hb
          exact ⟨atIndex, specAt_of_open hx hb⟩
        · simp [closedMention] at h
  · rintro ⟨i, hspec⟩
    obtain ⟨hx, hb⟩ := bool_of_specAt hspec
    unfold handleInputChange
    simp only [hx, hb, if_true]
  · intro i q heq
    unfold handleInputChange at heq
    cases hx : lastIndexOf '@' (value.take cursor) with
    | none =>
        simp only [hx] at heq
        exact absurd (congrArg MentionState.isOpen heq)
          (by simp [closedMention])
    | some atIndex =>
        simp only [hx] at heq
        split at heq
        · rename_i hb
          have hi : atIndex = i := by
            have := congrArg MentionState.mentionStart heq
            simpa using this
          have hq : (value.take cursor).drop (atIndex + 1) = q := by
            have := congrArg MentionState.searchQuery heq
            simpa using this
          subst hi
          exact ⟨specAt_of_open hx hb, hq.symm⟩
        · exact absurd (congrArg MentionState.isOpen heq)
            (by simp [closedMention])

/-- Witness for C7: the theorem applied at `"hello @re"`, cursor 9,
discharging the open-context hypothesis by evaluation. -/
theorem mention_trigger_witness :
    handleInputChange "hello @re".data 9 =
      { isOpen := true, searchQuery := "re".data, mentionStart := some 6,
        selectedIndex := 0 }
    ∧ SpecMentionActiveAt "hello @re".data 9 6
    ∧ "re".data = ("hello @re".data.take 9).drop 7 := by
  refine ⟨rfl, ?_, ?_⟩
  · exact ((mention_trigger "hello @re".data 9).2.1 6 "re".data rfl).1
  · exact ((mention_trigger "hello @re".data 9).2.1 6 "re".data rfl).2

/-- C8 (code divergence, documenting the failing behavior): the client's
request body carries both the message text and the selected model, but the
proxy's prompt handler forwards only the text — the body handed to the
upstream SDK contains exactly one text part and is independent of the
model, so the selected model never reaches the upstream agent server. -/
theorem prompt_forward_drops_model (t m m' : String) :
    promptForward (sendMessageBody t m) =
      { parts := [{ type := "text", text := t }] }
    ∧ promptForward (sendMessageBody t m) = promptForward (sendMessageBody t m')
    ∧ (sendMessageBody t m).model = m :=
  ⟨rfl, rfl, rfl⟩

/-- C9 (candidate list cap): for every server response, the popover maps and
displays at most the first 10 paths of the ordered result list, and the
arrow-key navigation keeps the selection index within those at-most-10
candidates, so Enter/Tab selection also operates only over them. -/
theorem candidate_cap (fileList : List String) :
    (mapFetchedFiles fileList).length ≤ 10
    ∧ (mapFetchedFiles fileList).map (·.path) = fileList.take 10
    ∧ (∀ prev, prev < (mapFetchedFiles fileList).length →
        arrowDownIndex prev (mapFetchedFiles fileList).length
            < (mapFetchedFiles fileList).length
        ∧ arrowUpIndex prev (mapFetchedFiles fileList).length
            < (mapFetchedFiles fileList).length) := by
  refine ⟨?_, ?_, ?_⟩
  · simp only [mapFetchedFiles, List.length_map, List.length_take]
    omega
  · rw [mapFetchedFiles, List.map_map]
    have hid : ∀ l : List String,
        l.map ((fun x : FileResult => x.path) ∘ fun path =>
          { path := path
            name :=
              match (path.splitOn "/").getLast? with
              | some n => if n = "" then path else n
              | none => path }) = l := by
      intro l
      induction l with
      | nil => rfl
      | cons a l ih => simp only [List.map_cons, ih]; rfl
    exact hid _
  · intro prev hprev
    constructor
    · unfold arrowDownIndex
      have hpos : 0 < (mapFetchedFiles fileList).length := by omega
      rw [Nat.max_eq_left hpos]
      exact Nat.mod_lt _ hpos
    · unfold arrowUpIndex
      split <;> omega

/-- Witness for C9: a 12-path response yields exactly 10 candidates whose
paths are the first 10 of the response, and ArrowDown from index 9 stays in
range (wrapping to 0). -/
theorem candidate_cap_witness :
    (mapFetchedFiles filesC9).length ≤ 10
    ∧ (mapFetchedFiles filesC9).map (·.path) = filesC9.take 10
    ∧ 9 < (mapFetchedFiles filesC9).length
    ∧ arrowDownIndex 9 (mapFetchedFiles filesC9).length
        < (mapFetchedFiles filesC9).length := by
  refine ⟨(candidate_cap filesC9).1, (candidate_cap filesC9).2.1, by decide, ?_⟩
  exact ((candidate_cap filesC9).2.2 9 (by decide)).1

/-- C10 (empty search query short-circuits): a `/files/search` request with
a missing or empty `q` returns the empty list and performs no call to the
upstream find-files operation; a non-empty query invokes it. -/
theorem files_search_empty_query (findFiles : String → List String) :
    filesSearchHandler none findFiles = ([], false)
    ∧ filesSearchHandler (some "") findFiles = ([], false)
    ∧ ∀ q, q ≠ "" →
        filesSearchHandler (some q) findFiles = (findFiles q, true) := by
  refine ⟨rfl, rfl, ?_⟩
  intro q hq
  simp [filesSearchHandler, hq]

/-- Witness for C10: the handler applied to a concrete oracle with `none`,
`""`, and the non-empty query `"ab"`. -/
theorem files_search_empty_query_witness :
    filesSearchHandler none (fun _ => ["x"]) = ([], false)
    ∧ filesSearchHandler (some "") (fun _ => ["x"]) = ([], false)
    ∧ ("ab" : String) ≠ ""
    ∧ filesSearchHandler (some "ab") (fun _ => ["x"]) = (["x"], true) := by
  refine ⟨(files_search_empty_query _).1, (files_search_empty_query _).2.1,
    by decide, ?_⟩
  exact (files_search_empty_query _).2.2 "ab" (by decide)

end Portal
